import Mathlib

/-!
Verification of the multi-round negotiation engine of the compute marketplace.

Prices are modelled as rationals. Rounding to cents (Python `round(x, 2)`)
is modelled by `round2`, rounding to the nearest cent with ties away from
the smaller value. LLM calls are modelled by explicit oracle parameters: a
`failure` outcome stands for an exception inside the LLM call (which the
source catches and answers with its deterministic fallback), and a reply
outcome stands for a reply that passed the pydantic validation in
`core/llm_utils.py` (buyer replies: accept without price, or counter with a
price; seller replies: accept or reject with optional price, counter with a
price).
-/

namespace Spec2Proof

/-- Rounding to cents: model of Python `round(x, 2)` on the price domain. -/
def round2 (x : ℚ) : ℚ := (round (x * 100) : ℤ) / 100

/-- A rational that is a whole number of cents. -/
def centGrid (x : ℚ) : Prop := ∃ k : ℤ, x = (k : ℚ) / 100

theorem round2_centGrid (x : ℚ) : centGrid (round2 x) := ⟨round (x * 100), rfl⟩

theorem round2_grid_fix {x : ℚ} (h : centGrid x) : round2 x = x := by
  obtain ⟨k, rfl⟩ := h
  unfold round2
  have h100 : ((k : ℚ) / 100) * 100 = (k : ℚ) := by field_simp
  rw [h100, round_intCast]

theorem round2_mono {x y : ℚ} (h : x ≤ y) : round2 x ≤ round2 y := by
  unfold round2
  have : round (x * 100) ≤ round (y * 100) := by
    rw [round_eq, round_eq]
    exact Int.floor_le_floor (by linarith)
  have hc : ((round (x * 100) : ℤ) : ℚ) ≤ ((round (y * 100) : ℤ) : ℚ) :=
    Int.cast_le.mpr this
  linarith

theorem round2_ge_grid {x : ℚ} {k : ℤ} (h : (k : ℚ) / 100 - 1 / 200 ≤ x) :
    (k : ℚ) / 100 ≤ round2 x := by
  unfold round2
  rw [round_eq]
  have hk : (k : ℚ) ≤ x * 100 + 1 / 2 := by linarith
  have : k ≤ ⌊x * 100 + 1 / 2⌋ := Int.le_floor.mpr hk
  have hc : ((k : ℤ) : ℚ) ≤ ((⌊x * 100 + 1 / 2⌋ : ℤ) : ℚ) := Int.cast_le.mpr this
  linarith

theorem round2_le_grid {x : ℚ} {k : ℤ} (h : x < (k : ℚ) / 100 + 1 / 200) :
    round2 x ≤ (k : ℚ) / 100 := by
  unfold round2
  rw [round_eq]
  have hk : x * 100 + 1 / 2 < (k : ℚ) + 1 := by linarith
  have hfl : ⌊x * 100 + 1 / 2⌋ < k + 1 :=
    Int.floor_lt.mpr (by push_cast; linarith)
  have hle : ⌊x * 100 + 1 / 2⌋ ≤ k := by omega
  have hc : ((⌊x * 100 + 1 / 2⌋ : ℤ) : ℚ) ≤ ((k : ℤ) : ℚ) := Int.cast_le.mpr hle
  linarith

theorem round2_le_self_add (x : ℚ) : round2 x ≤ x + 1 / 200 := by
  unfold round2
  rw [round_eq]
  have := Int.floor_le (x * 100 + 1 / 2)
  linarith

theorem round2_gt_self_sub (x : ℚ) : x - 1 / 200 < round2 x := by
  unfold round2
  rw [round_eq]
  have := Int.sub_one_lt_floor (x * 100 + 1 / 2)
  linarith

/-! ## Buyer agent (src/agents/buyer.py) -/

/-- Outcome of the buyer LLM call, after the pydantic validation of
`BuyerReply` (action accept has no price, counter has a price); `failure`
is an exception anywhere in the call, answered by the deterministic
fallback. -/
inductive BuyerOracle
  | accept (reason : String)
  | counterOffer (price : ℚ) (reason : String)
  | failure
deriving DecidableEq, Repr

/-- Structured decision returned by `BuyerAgent.respond` (the source dict
has price None exactly on accept). -/
inductive BuyerAction
  | accept (reason : String)
  | counterOffer (price : ℚ) (reason : String)
deriving DecidableEq, Repr

def BuyerAction.isAccept : BuyerAction → Bool
  | .accept _ => true
  | .counterOffer _ _ => false

def BuyerAction.priceOf : BuyerAction → Option ℚ
  | .accept _ => none
  | .counterOffer p _ => some p

/-- State of `BuyerAgent`: constructor arguments plus the mutable
`negotiation_history` (the recorded seller offers) and the `last_offer`
attribute set by the strategic counter generator (absent before the first
fallback counter, like the Python `getattr` default). -/
structure BuyerAgent where
  max_wtp : ℚ
  urgency : ℚ
  strategy : String
  budget_flexibility : ℚ
  negotiation_history : List ℚ
  last_offer : Option ℚ
deriving DecidableEq, Repr

/-- Derived emergency ceiling, computed in the constructor. -/
def BuyerAgent.effective_max (b : BuyerAgent) : ℚ :=
  b.max_wtp * (1 + b.budget_flexibility * b.urgency)

/-- Model of `BuyerAgent._generate_strategic_counter_offer`: returns the
counter price and the updated agent (the source stores `last_offer`). -/
def generate_strategic_counter_offer (b : BuyerAgent) (seller_price : ℚ) :
    ℚ × BuyerAgent :=
  let negotiation_round := b.negotiation_history.length
  let counter :=
    if negotiation_round = 0 then
      max (seller_price * (8 / 10)) (b.max_wtp * (1 / 2))
    else
      let previous := b.last_offer.getD (seller_price * (8 / 10))
      previous + (seller_price - previous) * (1 / 2)
  let counter := counter * (1 + b.urgency * (5 / 100))
  let counter := min counter b.effective_max
  let counter := min counter (seller_price - 1 / 100)
  let final_counter := round2 (max (1 / 100) counter)
  (final_counter, { b with last_offer := some final_counter })

/-- Model of `BuyerAgent._should_accept_in_negotiation`. -/
def should_accept_in_negotiation (b : BuyerAgent) (seller_price : ℚ) : Bool :=
  decide (4 ≤ b.negotiation_history.length ∧ seller_price ≤ b.max_wtp * (95 / 100))

/-- Model of `BuyerAgent.respond`. The seller offer is first recorded in
`negotiation_history`; then the early-accept, late-accept and enhanced
acceptance checks run; then the oracle outcome is consulted, with the
deterministic strategic counter as fallback and as override when the
oracle proposes accepting above `max_wtp`. -/
def BuyerAgent.respond (b : BuyerAgent) (oracle : BuyerOracle)
    (seller_price : ℚ) : BuyerAction × BuyerAgent :=
  let b := { b with negotiation_history := b.negotiation_history ++ [seller_price] }
  if seller_price ≤ b.max_wtp * (6 / 10) then
    (.accept "Excellent price, well within budget", b)
  else if 4 ≤ b.negotiation_history.length ∧ seller_price ≤ b.max_wtp * (95 / 100) then
    (.accept "Acceptable price after extended negotiation", b)
  else if should_accept_in_negotiation b seller_price then
    (.accept "Price meets acceptance criteria", b)
  else
    match oracle with
    | .accept r =>
      if b.max_wtp < seller_price then
        let gen := generate_strategic_counter_offer b seller_price
        let final_counter := min gen.1 (seller_price - 1 / 100)
        let final_counter := round2 (max (1 / 100) final_counter)
        (.counterOffer final_counter "LLM suggested accept above budget, countering instead", gen.2)
      else
        (.accept r, b)
    | .counterOffer p _r =>
      let safe_price := min p (seller_price - 1 / 100)
      let final_price := round2 (max (1 / 100) safe_price)
      (.counterOffer final_price "Counter-offering", b)
    | .failure =>
      let gen := generate_strategic_counter_offer b seller_price
      let counter := min gen.1 (seller_price - 1 / 100)
      let final_counter := round2 (max (1 / 100) counter)
      (.counterOffer final_counter "Strategic counter-offer using fallback", gen.2)

example :
    ((BuyerAgent.respond
        ⟨100, 0, "balanced", 1 / 4, [], none⟩ .failure 110).1) =
      .counterOffer 99 "Strategic counter-offer using fallback" := by
  norm_num [BuyerAgent.respond, should_accept_in_negotiation,
    generate_strategic_counter_offer, BuyerAgent.effective_max, round2, round_eq]

/-! ## Seller agent (src/agents/seller.py) -/

/-- Per-resource pricing configuration, one row of `BASE_PRICES`. -/
structure ResourceConfig where
  base : ℚ
  demand_multiplier : ℚ
  scarcity_threshold : ℚ
deriving DecidableEq, Repr

/-- Model of the Python `str.upper()` normalization applied to resource
types before the `BASE_PRICES` lookup. -/
def pyUpper (s : String) : String := String.mk (s.data.map Char.toUpper)

/-- Lookup in `BASE_PRICES` with the CPU row as default for unknown
resource types. -/
def base_prices_cfg (resource_type : String) : ResourceConfig :=
  if pyUpper resource_type = "GPU" then ⟨5 / 2, 6 / 5, 8 / 10⟩
  else if pyUpper resource_type = "CPU" then ⟨8 / 10, 11 / 10, 9 / 10⟩
  else if pyUpper resource_type = "TPU" then ⟨6, 13 / 10, 7 / 10⟩
  else ⟨8 / 10, 11 / 10, 9 / 10⟩

/-- Lookup in `MARKET_CONDITIONS` with default multiplier 1. -/
def market_multiplier_of (market_condition : String) : ℚ :=
  if market_condition = "high_demand" then 12 / 10
  else if market_condition = "normal" then 1
  else if market_condition = "low_demand" then 9 / 10
  else 1

/-- Constructor state of `SellerAgent` (its `negotiation_history` list is
never read by the decision code and is omitted). -/
structure SellerAgent where
  strategy : String
  min_margin : ℚ
  max_discount : ℚ
  market_condition : String
deriving DecidableEq, Repr

/-- Model of `SellerAgent.get_base_price`. The scarcity produced by
`calculate_resource_scarcity` (an availability lookup clamped to [0, 1],
or the fixed fallback 0.7) and the randomized premium drawn from
uniform(1.1, 1.2) enter as explicit arguments. The 1.5x cap over the
undiscounted base is applied after all multipliers, before rounding. -/
def get_base_price (s : SellerAgent) (resource_type : String)
    (duration_hours : ℕ) (scarcity premium : ℚ) : ℚ :=
  let rc := base_prices_cfg resource_type
  let base_price := rc.base
  let market_multiplier := market_multiplier_of s.market_condition
  let scarcity_multiplier :=
    if rc.scarcity_threshold < scarcity then
      1 + (scarcity - rc.scarcity_threshold) * 2
    else 1
  let duration_discount :=
    if 168 ≤ duration_hours then (9 : ℚ) / 10
    else if 24 ≤ duration_hours then (95 : ℚ) / 100
    else 1
  let total_price := base_price * duration_hours * market_multiplier
    * scarcity_multiplier * duration_discount * premium
  let max_price := base_price * duration_hours * (3 / 2)
  round2 (min total_price max_price)

/-- Outcome of the seller LLM call, after the pydantic validation of
`SellerReply` in `core/llm_utils.py` (a counter always carries a price,
accept and reject may or may not); `failure` is an exception anywhere in
the call. -/
inductive SellerOracle
  | accept (price : Option ℚ) (reason : String)
  | counterOffer (price : ℚ) (reason : String)
  | reject (price : Option ℚ) (reason : String)
  | failure
deriving DecidableEq, Repr

/-- Decision dict returned by `SellerAgent.respond_to_counter_offer`.
Counter-offers always carry a numeric price in the source (the truthiness
guard on the oracle price sends a zero price through the branch that
returns it unchanged, still numeric), so the constructor carries a plain
rational there. -/
inductive SellerDecision
  | accept (price : Option ℚ) (reason : String)
  | counterOffer (price : ℚ) (reason : String)
  | reject (price : Option ℚ) (reason : String)
deriving DecidableEq, Repr

def SellerDecision.action : SellerDecision → String
  | .accept _ _ => "accept"
  | .counterOffer _ _ => "counter_offer"
  | .reject _ _ => "reject"

def SellerDecision.priceOf : SellerDecision → Option ℚ
  | .accept p _ => p
  | .counterOffer p _ => some p
  | .reject p _ => p

/-- Roles of negotiation history entries. -/
inductive Role
  | buyer
  | seller
deriving DecidableEq, Repr

/-- One entry of a negotiation log or session history. `price` is the
top-level price key (present only on the initial pricing entry);
`respPrice` is the price inside the response payload, the field read back
by the seller when it looks for its own last offer. -/
structure LogEntry where
  role : Role
  action : String
  price : Option ℚ
  respPrice : Option ℚ
  turn : ℕ
deriving DecidableEq, Repr

/-- Scan of the history from the end for the last seller entry whose
response payload carries a price, as in the for-loop of
`respond_to_counter_offer`. -/
def last_seller_price (history : List LogEntry) : Option ℚ :=
  history.reverse.findSome? fun e =>
    match e.role with
    | .seller => e.respPrice
    | .buyer => none

/-- Middle-ground block of `respond_to_counter_offer` (the code between
the immediate accept and the grace-band check): move halfway from the
last own published price toward the buyer, floored at the margin minimum;
without a usable last own price (no round yet, no seller entry with a
response price in the history, or a falsy zero price) start at 115
percent of the base price. -/
def seller_middle_ground (min_acceptable base_price counter_price : ℚ)
    (history : List LogEntry) : ℚ :=
  if 0 < history.length then
    match last_seller_price history with
    | some lsp =>
      if lsp ≠ 0 then
        max (lsp - (lsp - counter_price) * (1 / 2)) min_acceptable
      else base_price * (115 / 100)
    | none => base_price * (115 / 100)
  else base_price * (115 / 100)

/-- Model of `SellerAgent.respond_to_counter_offer`. The base price is
recomputed per call from the quote parameters plus this call's scarcity
and premium draws. With an available oracle, a counter price is capped at
the computed middle ground if truthy, and any other validated reply is
returned unchanged; on oracle failure the middle-ground counter is
returned. -/
def respond_to_counter_offer (s : SellerAgent) (counter_price : ℚ)
    (resource_type : String) (duration_hours : ℕ) (scarcity premium : ℚ)
    (history : List LogEntry) (oracle : SellerOracle) : SellerDecision :=
  let base_price := get_base_price s resource_type duration_hours scarcity premium
  let min_acceptable := base_price * (1 + s.min_margin)
  let negotiation_round := history.length
  if min_acceptable ≤ counter_price then
    .accept (some counter_price) "Good margin achieved - deal closed"
  else
    let new_price := seller_middle_ground min_acceptable base_price counter_price history
    if 3 ≤ negotiation_round ∧ min_acceptable * (95 / 100) ≤ counter_price then
      .accept (some counter_price) "Close enough after several rounds"
    else if base_price * (6 / 10) ≤ counter_price then
      match oracle with
      | .accept p r => .accept p r
      | .counterOffer p r =>
        if p ≠ 0 then .counterOffer (min p new_price) r
        else .counterOffer p r
      | .reject p r => .reject p r
      | .failure =>
        .counterOffer (round2 new_price) "Moving toward middle ground"
    else
      .counterOffer (round2 new_price) "Moving toward middle ground"

example :
    get_base_price ⟨"balanced", 1 / 2, 2 / 5, "normal"⟩ "CPU" 5 (7 / 10) (23 / 20) =
      23 / 5 := by
  norm_num +decide [get_base_price, base_prices_cfg, pyUpper,
    market_multiplier_of, round2, round_eq]

example :
    respond_to_counter_offer ⟨"balanced", 1 / 2, 2 / 5, "normal"⟩ (644 / 100)
      "CPU" 5 (7 / 10) (23 / 20)
      [⟨.buyer, "counter_offer", none, some (644 / 100), 1⟩] .failure =
      .counterOffer (529 / 100) "Moving toward middle ground" := by
  norm_num +decide [respond_to_counter_offer, seller_middle_ground, get_base_price,
    base_prices_cfg, pyUpper, market_multiplier_of, last_seller_price, round2,
    round_eq, List.findSome?]

/-! ## Negotiation engine (src/agents/negotiation_engine.py) -/

/-- Statuses of `db.models.QuoteStatus`. -/
inductive QuoteStatus
  | pending
  | priced
  | accepted
  | rejected
  | countered
  | paid
deriving DecidableEq, Repr

/-- The negotiated quote record, with the fields the engine reads and
writes. The price column defaults to 0.0 in the database. -/
structure Quote where
  resource_type : String
  duration_hours : ℕ
  buyer_max_price : ℚ
  price : ℚ
  status : QuoteStatus
  negotiation_log : List LogEntry
deriving DecidableEq, Repr

/-- Per-quote `NegotiationState` kept in the engine session registry. -/
structure SessionState where
  state : String
  round_number : ℕ
  last_offer : Option ℚ
  negotiation_history : List LogEntry
deriving DecidableEq, Repr

/-- The engine state: its seller agent and the in-memory session registry
keyed by quote id. -/
structure NegotiationEngine where
  seller : SellerAgent
  negotiation_sessions : List (ℕ × SessionState)
deriving DecidableEq, Repr

def lookupSession : List (ℕ × SessionState) → ℕ → Option SessionState
  | [], _ => none
  | p :: rest, quote_id =>
    if p.1 = quote_id then some p.2 else lookupSession rest quote_id

def insertSession (sessions : List (ℕ × SessionState)) (quote_id : ℕ)
    (s : SessionState) : List (ℕ × SessionState) :=
  match sessions with
  | [] => [(quote_id, s)]
  | p :: rest =>
    if p.1 = quote_id then (quote_id, s) :: rest
    else p :: insertSession rest quote_id s

/-- External nondeterminism of one engine call: the oracle outcome of
every buyer and seller call (indexed by the turn number), the scarcity
and premium draws of every per-turn base-price computation, and the
oracle outcome and draws of the initial pricing call of `run_loop` (its
oracle outcome is the numeric price of a successful LLM reply, `none` on
failure). -/
structure EngineEnv where
  buyerOracle : ℕ → BuyerOracle
  sellerOracle : ℕ → SellerOracle
  scarcity : ℕ → ℚ
  premium : ℕ → ℚ
  pricingOracle : Option ℚ
  pricingScarcity : ℚ
  pricingPremium : ℚ

/-- Mutable state threaded through the while loop of `negotiate`: the
buyer agent, the negotiation session, the quote row, the accumulated log
list, the current price and the turn counter. -/
structure LoopSt where
  buyer : BuyerAgent
  sess : SessionState
  q : Quote
  log : List LogEntry
  current_price : ℚ
  turns : ℕ
deriving Repr

/-- Model of the `while turns < max_turns` loop of
`NegotiationEngine.negotiate`. The fuel argument only witnesses
termination; the loop guard is the same bound the source checks. -/
def negotiationTurns (seller : SellerAgent) (resource_type : String)
    (duration_hours : ℕ) (env : EngineEnv) (max_turns : ℕ) :
    ℕ → LoopSt → LoopSt
  | 0, st => st
  | fuel + 1, st =>
    if max_turns ≤ st.turns then st
    else
      let turns := st.turns + 1
      let sess := { st.sess with round_number := turns + 1 }
      let br := BuyerAgent.respond st.buyer (env.buyerOracle turns) st.current_price
      match br.1 with
      | .accept _r =>
        let bEntry : LogEntry := ⟨.buyer, "accept", none, none, turns⟩
        let log := st.log ++ [bEntry]
        let sess := { sess with
          negotiation_history := sess.negotiation_history ++ [bEntry]
          state := "accepted" }
        { st with
          buyer := br.2
          sess := sess
          q := { st.q with status := .accepted, negotiation_log := log }
          log := log
          turns := turns }
      | .counterOffer counter_price _r =>
        let bEntry : LogEntry := ⟨.buyer, "counter_offer", none, some counter_price, turns⟩
        let log := st.log ++ [bEntry]
        let sess := { sess with
          negotiation_history := sess.negotiation_history ++ [bEntry] }
        let sResp := respond_to_counter_offer seller counter_price resource_type
          duration_hours (env.scarcity turns) (env.premium turns)
          sess.negotiation_history (env.sellerOracle turns)
        let sEntry : LogEntry := ⟨.seller, sResp.action, none, sResp.priceOf, turns⟩
        let log := log ++ [sEntry]
        let sess := { sess with
          negotiation_history := sess.negotiation_history ++ [sEntry] }
        match sResp with
        | .accept _p _rs =>
          { st with
            buyer := br.2
            sess := { sess with state := "accepted", last_offer := some counter_price }
            q := { st.q with
              price := counter_price
              status := .accepted
              negotiation_log := log }
            log := log
            turns := turns }
        | .counterOffer new_price _rs =>
          negotiationTurns seller resource_type duration_hours env max_turns fuel
            { st with
              buyer := br.2
              sess := { sess with last_offer := some new_price }
              q := { st.q with price := new_price }
              log := log
              current_price := new_price
              turns := turns }
        | .reject _p _rs =>
          { st with
            buyer := br.2
            sess := { sess with state := "rejected" }
            q := { st.q with status := .rejected, negotiation_log := log }
            log := log
            turns := turns }

/-- Model of `NegotiationEngine.run_loop`: initial pricing of a pending
quote. Raising is modelled by the error constructor, which carries no
updated state. -/
def run_loop (eng : NegotiationEngine) (env : EngineEnv) (quote_id : ℕ)
    (q : Quote) : Except String (NegotiationEngine × Quote) :=
  if q.status ≠ .pending then
    .error ("Quote " ++ toString quote_id ++ " is not in pending status")
  else
    let price :=
      match env.pricingOracle with
      | some p => p
      | none => get_base_price eng.seller q.resource_type q.duration_hours
          env.pricingScarcity env.pricingPremium
    let pricing_entry : LogEntry := ⟨.seller, "initial_quote", some price, none, 0⟩
    let log := q.negotiation_log ++ [pricing_entry]
    let q := { q with price := price, status := .priced, negotiation_log := log }
    let sess : SessionState := ⟨"pricing", 1, some price, [pricing_entry]⟩
    .ok ({ eng with
      negotiation_sessions := insertSession eng.negotiation_sessions quote_id sess }, q)

/-- Model of `NegotiationEngine.negotiate`. A pending quote is priced by
`run_loop` first; any other non-priced status raises. The returned
natural number counts the executed loop iterations, each being one buyer
call optionally followed by one seller call. -/
def negotiate (eng : NegotiationEngine) (env : EngineEnv) (quote_id : ℕ)
    (q : Quote) (max_turns : ℕ) (urgency : Option ℚ) (strategy : Option String) :
    Except String (NegotiationEngine × Quote × ℕ) :=
  match (if q.status = .pending then run_loop eng env quote_id q else .ok (eng, q)) with
  | .error e => .error e
  | .ok (eng, q) =>
    if q.status ≠ .priced then
      .error ("Quote " ++ toString quote_id ++ " is not in priced status")
    else
      let buyer : BuyerAgent :=
        { max_wtp := q.buyer_max_price
          urgency := urgency.getD (7 / 10)
          strategy := strategy.getD "balanced"
          budget_flexibility := 25 / 100
          negotiation_history := []
          last_offer := none }
      let sp :=
        match lookupSession eng.negotiation_sessions quote_id with
        | some s => (eng.negotiation_sessions, s)
        | none =>
          let s : SessionState := ⟨"negotiating", 1, some q.price, []⟩
          (insertSession eng.negotiation_sessions quote_id s, s)
      let st0 : LoopSt := ⟨buyer, sp.2, q, q.negotiation_log, q.price, 0⟩
      let stF := negotiationTurns eng.seller q.resource_type q.duration_hours env
        max_turns max_turns st0
      let stF :=
        if max_turns ≤ stF.turns ∧ stF.q.status = .priced then
          { stF with
            q := { stF.q with status := .rejected, negotiation_log := stF.log }
            sess := { stF.sess with state := "max_turns_reached" } }
        else stF
      .ok ({ eng with negotiation_sessions := insertSession sp.1 quote_id stF.sess },
        stF.q, stF.turns)

/-- Model of `NegotiationEngine.finalize_negotiation`: marks an existing
session finalized and always returns the same summary pair
(status, state). -/
def finalize_negotiation (sessions : List (ℕ × SessionState)) (quote_id : ℕ) :
    List (ℕ × SessionState) × (String × String) :=
  match lookupSession sessions quote_id with
  | some s => (insertSession sessions quote_id { s with state := "finalized" },
      ("finalized", "completed"))
  | none => (sessions, ("finalized", "completed"))

/-- Model of the legacy `NegotiationEngine.negotiate` in
src/negotiation/engine.py. It raises on any quote that is not priced
before touching any state. On a priced quote its body always raises as
well, wrapped into a negotiation-failure error by the outer handler: it
calls json.loads on the negotiation_log property, which by now returns an
already-decoded list, raising a TypeError that the JSONDecodeError
handler does not catch (and even past that point, the modern buyer
returns a dict whose float conversion raises a TypeError that the
ValueError handler does not catch). No quote change is committed on any
path. -/
def legacyNegotiate (quote_id : ℕ) (q : Quote) : Except String Quote :=
  if q.status ≠ .priced then
    .error ("Quote " ++ toString quote_id ++ " is not in priced status")
  else
    .error "Negotiation failed: the JSON object must be str, bytes or bytearray, not list"

/-! ## Claims -/

/-- C9: for every resource type and duration, the price returned by
`SellerAgent.get_base_price` never exceeds 1.5 times the undiscounted
base (per-hour base rate times duration), for every market condition,
scarcity value and randomized premium: the cap is applied after all the
multipliers, and rounding cannot push past it because the cap itself is a
whole number of cents for every configured base rate. -/
theorem C9_opening_price_cap (s : SellerAgent) (resource_type : String)
    (duration_hours : ℕ) (h : 1 ≤ duration_hours) (scarcity premium : ℚ) :
    get_base_price s resource_type duration_hours scarcity premium ≤
      (base_prices_cfg resource_type).base * duration_hours * (3 / 2) := by
  have hgrid : centGrid ((base_prices_cfg resource_type).base *
      (duration_hours : ℚ) * (3 / 2)) := by
    unfold base_prices_cfg centGrid
    split_ifs
    · exact ⟨375 * duration_hours, by push_cast; ring⟩
    · exact ⟨120 * duration_hours, by push_cast; ring⟩
    · exact ⟨900 * duration_hours, by push_cast; ring⟩
    · exact ⟨120 * duration_hours, by push_cast; ring⟩
  have hle := round2_mono
    (min_le_right
      ((base_prices_cfg resource_type).base * duration_hours *
        market_multiplier_of s.market_condition *
        (if (base_prices_cfg resource_type).scarcity_threshold < scarcity then
          1 + (scarcity - (base_prices_cfg resource_type).scarcity_threshold) * 2
        else 1) *
        (if 168 ≤ duration_hours then (9 : ℚ) / 10
          else if 24 ≤ duration_hours then (95 : ℚ) / 100 else 1) * premium)
      ((base_prices_cfg resource_type).base * duration_hours * (3 / 2)))
  rw [round2_grid_fix hgrid] at hle
  exact hle

/-- C9 witness at a concrete input. -/
theorem C9_opening_price_cap_witness :
    1 ≤ 4 ∧
      get_base_price ⟨"balanced", 5 / 100, 4 / 10, "normal"⟩ "GPU" 4 (9 / 10) (6 / 5) ≤
        (base_prices_cfg "GPU").base * 4 * (3 / 2) :=
  ⟨by norm_num,
    C9_opening_price_cap ⟨"balanced", 5 / 100, 4 / 10, "normal"⟩ "GPU" 4
      (by norm_num) (9 / 10) (6 / 5)⟩

/-- C1: ceiling invariant of the buyer. For every oracle outcome and
round, if `BuyerAgent.respond` returns accept then the seller price is at
most `max_wtp` (the budget is nonnegative, as every buyer budget in the
system is); and when the oracle proposes accept while the price exceeds
`max_wtp`, the buyer overrides it and returns a counter-offer. -/
theorem C1_ceiling_invariant (b : BuyerAgent) (oracle : BuyerOracle)
    (seller_price : ℚ) (hw : 0 ≤ b.max_wtp) :
    (∀ r, (b.respond oracle seller_price).1 = .accept r →
      seller_price ≤ b.max_wtp) ∧
    (∀ r, oracle = .accept r → b.max_wtp < seller_price →
      ∃ p r2, (b.respond oracle seller_price).1 = .counterOffer p r2) := by
  simp only [BuyerAgent.respond]
  by_cases h1 : seller_price ≤ b.max_wtp * (6 / 10)
  · rw [if_pos h1]
    exact ⟨fun r _ => by linarith, fun r _ hgt => (by linarith : False).elim⟩
  · rw [if_neg h1]
    by_cases h2 : 4 ≤ (b.negotiation_history ++ [seller_price]).length ∧
        seller_price ≤ b.max_wtp * (95 / 100)
    · rw [if_pos h2]
      exact ⟨fun r _ => by linarith [h2.2],
        fun r _ hgt => (by linarith [h2.2] : False).elim⟩
    · rw [if_neg h2]
      by_cases h3 : should_accept_in_negotiation
          { b with negotiation_history := b.negotiation_history ++ [seller_price] }
          seller_price = true
      · rw [if_pos h3]
        have h3p : seller_price ≤ b.max_wtp * (95 / 100) := by
          unfold should_accept_in_negotiation at h3
          simp only [decide_eq_true_eq] at h3
          exact h3.2
        exact ⟨fun r _ => by linarith, fun r _ hgt => (by linarith : False).elim⟩
      · rw [if_neg h3]
        cases oracle with
        | accept r0 =>
          dsimp only []
          by_cases h4 : b.max_wtp < seller_price
          · rw [if_pos h4]
            exact ⟨fun r hr => by simp at hr, fun r _ _ => ⟨_, _, rfl⟩⟩
          · rw [if_neg h4]
            exact ⟨fun r _ => le_of_not_lt h4, fun r _ hgt => (h4 hgt).elim⟩
        | counterOffer p r0 =>
          exact ⟨fun r hr => by simp at hr, fun r hr => by simp at hr⟩
        | failure =>
          exact ⟨fun r hr => by simp at hr, fun r hr => by simp at hr⟩

/-- C1 witness at a concrete input: budget 100, oracle proposing accept at
price 150. -/
theorem C1_ceiling_invariant_witness :
    (0 : ℚ) ≤ 100 ∧
      ∃ p r2,
        (BuyerAgent.respond ⟨100, 0, "balanced", 1 / 4, [], none⟩
            (.accept "ok") 150).1 = .counterOffer p r2 :=
  ⟨by norm_num,
    (C1_ceiling_invariant ⟨100, 0, "balanced", 1 / 4, [], none⟩ (.accept "ok") 150
      (by norm_num)).2 "ok" rfl (by norm_num)⟩

/-- C6: buyer acceptance rules in priority order. On the deterministic
path (oracle failure) `BuyerAgent.respond` accepts exactly when either
the early-accept rule fires (price at most 60 percent of the budget, in
any round) or the round count after recording the current offer is at
least 4 and the price is at most 95 percent of the budget; the
early-accept rule fires for every oracle outcome. -/
theorem C6_buyer_acceptance_rules (b : BuyerAgent) (seller_price : ℚ) :
    ((b.respond .failure seller_price).1.isAccept = true ↔
      (seller_price ≤ b.max_wtp * (6 / 10) ∨
        (4 ≤ b.negotiation_history.length + 1 ∧
          seller_price ≤ b.max_wtp * (95 / 100)))) ∧
    (∀ oracle : BuyerOracle, seller_price ≤ b.max_wtp * (6 / 10) →
      (b.respond oracle seller_price).1.isAccept = true) := by
  constructor
  · simp only [BuyerAgent.respond]
    by_cases h1 : seller_price ≤ b.max_wtp * (6 / 10)
    · rw [if_pos h1]
      exact iff_of_true rfl (Or.inl h1)
    · rw [if_neg h1]
      by_cases h2 : 4 ≤ (b.negotiation_history ++ [seller_price]).length ∧
          seller_price ≤ b.max_wtp * (95 / 100)
      · rw [if_pos h2]
        refine iff_of_true rfl (Or.inr ⟨?_, h2.2⟩)
        have := h2.1
        simpa using this
      · rw [if_neg h2]
        by_cases h3 : should_accept_in_negotiation
            { b with negotiation_history := b.negotiation_history ++ [seller_price] }
            seller_price = true
        · exfalso
          unfold should_accept_in_negotiation at h3
          simp only [decide_eq_true_eq] at h3
          exact h2 h3
        · rw [if_neg h3]
          refine iff_of_false ?_ ?_
          · simp [BuyerAction.isAccept]
          · rintro (hc | ⟨hr, hc⟩)
            · exact h1 hc
            · exact h2 ⟨by simpa using hr, hc⟩
  · intro oracle h1
    simp only [BuyerAgent.respond]
    rw [if_pos h1]
    rfl

/-- C6 witness at a concrete input: round count 4 with a price between 60
and 95 percent of the budget is accepted on the deterministic path. -/
theorem C6_buyer_acceptance_rules_witness :
    (BuyerAgent.respond ⟨100, 0, "balanced", 1 / 4, [120, 110, 101], none⟩
        .failure 90).1.isAccept = true :=
  (C6_buyer_acceptance_rules ⟨100, 0, "balanced", 1 / 4, [120, 110, 101], none⟩
      90).1.mpr (Or.inr ⟨by norm_num, by norm_num⟩)

/-- C2 counterexample: with min_margin 5 percent, a CPU quote for 1 hour
(base cost 0.92 after the 1.15 premium draw, margin floor 0.966) and a
round count of 3, a buyer counter of 0.95 is accepted through the grace
band although 0.95 is strictly below base_cost * (1 + min_margin), so
the floor invariant as stated fails on the grace-band path. -/
theorem C2_floor_invariant_counterexample :
    (respond_to_counter_offer ⟨"balanced", 1 / 20, 2 / 5, "normal"⟩ (95 / 100)
        "CPU" 1 (7 / 10) (23 / 20)
        [⟨.buyer, "counter_offer", none, some (9 / 10), 1⟩,
          ⟨.seller, "counter_offer", none, some 1, 1⟩,
          ⟨.buyer, "counter_offer", none, some (95 / 100), 2⟩] .failure).action =
      "accept" ∧
    (respond_to_counter_offer ⟨"balanced", 1 / 20, 2 / 5, "normal"⟩ (95 / 100)
        "CPU" 1 (7 / 10) (23 / 20)
        [⟨.buyer, "counter_offer", none, some (9 / 10), 1⟩,
          ⟨.seller, "counter_offer", none, some 1, 1⟩,
          ⟨.buyer, "counter_offer", none, some (95 / 100), 2⟩] .failure).priceOf =
      some (95 / 100) ∧
    (95 / 100 : ℚ) <
      get_base_price ⟨"balanced", 1 / 20, 2 / 5, "normal"⟩ "CPU" 1 (7 / 10) (23 / 20) *
        (1 + 1 / 20) := by
  refine ⟨?_, ?_, ?_⟩ <;>
    norm_num +decide [respond_to_counter_offer, seller_middle_ground,
      get_base_price, base_prices_cfg, pyUpper, market_multiplier_of,
      last_seller_price, round2, round_eq, List.findSome?,
      SellerDecision.action, SellerDecision.priceOf]

/-- C2 amended: every accept produced without the oracle (failure outcome)
carries the buyer counter as price and satisfies the weakened floor
price ≥ 0.95 * base_cost * (1 + min_margin); the full floor holds only on
the immediate-accept path, the round ≥ 3 grace band deliberately goes 5
percent below it, and an oracle accept reply would be returned without
any floor validation. -/
theorem C2_floor_invariant_amended (s : SellerAgent) (counter_price : ℚ)
    (resource_type : String) (duration_hours : ℕ) (scarcity premium : ℚ)
    (history : List LogEntry)
    (hm : 0 ≤ get_base_price s resource_type duration_hours scarcity premium *
      (1 + s.min_margin)) :
    ∀ p r, respond_to_counter_offer s counter_price resource_type duration_hours
        scarcity premium history .failure = .accept p r →
      p = some counter_price ∧
      get_base_price s resource_type duration_hours scarcity premium *
        (1 + s.min_margin) * (95 / 100) ≤ counter_price := by
  simp only [respond_to_counter_offer]
  set B := get_base_price s resource_type duration_hours scarcity premium with hB
  by_cases hacc : B * (1 + s.min_margin) ≤ counter_price
  · rw [if_pos hacc]
    intro p r hp
    simp only [SellerDecision.accept.injEq] at hp
    exact ⟨hp.1.symm, by linarith⟩
  · rw [if_neg hacc]
    by_cases hgr : 3 ≤ history.length ∧
        B * (1 + s.min_margin) * (95 / 100) ≤ counter_price
    · rw [if_pos hgr]
      intro p r hp
      simp only [SellerDecision.accept.injEq] at hp
      exact ⟨hp.1.symm, hgr.2⟩
    · rw [if_neg hgr]
      by_cases h06 : B * (6 / 10) ≤ counter_price
      · rw [if_pos h06]
        intro p r hp
        simp at hp
      · rw [if_neg h06]
        intro p r hp
        simp at hp

/-- C2 witness for the amended theorem at the grace-band input. -/
theorem C2_floor_invariant_amended_witness :
    (0 : ℚ) ≤ get_base_price ⟨"balanced", 1 / 20, 2 / 5, "normal"⟩ "CPU" 1
        (7 / 10) (23 / 20) * (1 + 1 / 20) ∧
    (some (95 / 100) = some ((95 : ℚ) / 100) ∧
      get_base_price ⟨"balanced", 1 / 20, 2 / 5, "normal"⟩ "CPU" 1 (7 / 10) (23 / 20) *
        (1 + 1 / 20) * (95 / 100) ≤ (95 : ℚ) / 100) :=
  ⟨by norm_num +decide [get_base_price, base_prices_cfg, pyUpper,
      market_multiplier_of, round2, round_eq],
    C2_floor_invariant_amended ⟨"balanced", 1 / 20, 2 / 5, "normal"⟩ (95 / 100)
      "CPU" 1 (7 / 10) (23 / 20)
      [⟨.buyer, "counter_offer", none, some (9 / 10), 1⟩,
        ⟨.seller, "counter_offer", none, some 1, 1⟩,
        ⟨.buyer, "counter_offer", none, some (95 / 100), 2⟩]
      (by norm_num +decide [get_base_price, base_prices_cfg, pyUpper,
        market_multiplier_of, round2, round_eq])
      (some (95 / 100)) "Close enough after several rounds"
      (by norm_num +decide [respond_to_counter_offer, seller_middle_ground,
        get_base_price, base_prices_cfg, pyUpper, market_multiplier_of,
        last_seller_price, round2, round_eq, List.findSome?])⟩

/-- Every buyer counter price has the clamped shape
`round2 (max epsilon (min x (seller_price - 0.01)))`. -/
theorem respond_counterOffer_shape (b : BuyerAgent) (oracle : BuyerOracle)
    (seller_price p : ℚ) (r : String)
    (hp : (b.respond oracle seller_price).1 = .counterOffer p r) :
    ∃ x, p = round2 (max (1 / 100) (min x (seller_price - 1 / 100))) := by
  simp only [BuyerAgent.respond] at hp
  by_cases h1 : seller_price ≤ b.max_wtp * (6 / 10)
  · rw [if_pos h1] at hp
    simp at hp
  · rw [if_neg h1] at hp
    by_cases h2 : 4 ≤ (b.negotiation_history ++ [seller_price]).length ∧
        seller_price ≤ b.max_wtp * (95 / 100)
    · rw [if_pos h2] at hp
      simp at hp
    · rw [if_neg h2] at hp
      by_cases h3 : should_accept_in_negotiation
          { b with negotiation_history := b.negotiation_history ++ [seller_price] }
          seller_price = true
      · rw [if_pos h3] at hp
        simp at hp
      · rw [if_neg h3] at hp
        cases oracle with
        | accept r0 =>
          dsimp only [] at hp
          by_cases h4 : b.max_wtp < seller_price
          · rw [if_pos h4] at hp
            simp only [BuyerAction.counterOffer.injEq] at hp
            exact ⟨_, hp.1.symm⟩
          · rw [if_neg h4] at hp
            simp at hp
        | counterOffer p0 r0 =>
          simp only [BuyerAction.counterOffer.injEq] at hp
          exact ⟨p0, hp.1.symm⟩
        | failure =>
          simp only [BuyerAction.counterOffer.injEq] at hp
          exact ⟨_, hp.1.symm⟩

/-- A clamped counter stays strictly below the seller price once that
price exceeds the one-cent epsilon. -/
theorem counter_clamp_lt {x seller_price : ℚ} (hs : 1 / 100 < seller_price) :
    round2 (max (1 / 100) (min x (seller_price - 1 / 100))) < seller_price := by
  rcases le_or_lt seller_price (2 / 100) with hc | hc
  · have hmin : min x (seller_price - 1 / 100) ≤ 1 / 100 :=
      le_trans (min_le_right _ _) (by linarith)
    rw [max_eq_left hmin, round2_grid_fix ⟨1, by norm_num⟩]
    exact hs
  · have harg : max (1 / 100) (min x (seller_price - 1 / 100)) ≤
        seller_price - 1 / 100 :=
      max_le (by linarith) (min_le_right _ _)
    have h1 := round2_mono harg
    have h2 := round2_le_self_add (seller_price - 1 / 100)
    linarith

/-- The middle-ground price never drops below the margin minimum when the
base price is nonnegative and the margin stays below the fixed 15 percent
opening premium. -/
theorem seller_middle_ground_ge (B m counter_price : ℚ)
    (history : List LogEntry) (hB : 0 ≤ B) (hm : m ≤ 3 / 20) :
    B * (1 + m) ≤ seller_middle_ground (B * (1 + m)) B counter_price history := by
  have h115 : B * (1 + m) ≤ B * (115 / 100) := by nlinarith
  unfold seller_middle_ground
  by_cases hlen : 0 < history.length
  · rw [if_pos hlen]
    cases hls : last_seller_price history with
    | none => exact h115
    | some lsp =>
      dsimp only []
      by_cases hz : lsp ≠ 0
      · rw [if_pos hz]
        exact le_max_right _ _
      · rw [if_neg hz]
        exact h115
  · rw [if_neg hlen]
    exact h115

/-- The middle-ground price is either floored at the margin minimum (when
a usable nonzero last own price is found in a nonempty history) or is
exactly the history-independent opening counter at 115 percent of the
base price. -/
theorem seller_middle_ground_cases (min_acceptable base_price counter_price : ℚ)
    (history : List LogEntry) :
    min_acceptable ≤
      seller_middle_ground min_acceptable base_price counter_price history ∨
    seller_middle_ground min_acceptable base_price counter_price history =
      base_price * (115 / 100) := by
  unfold seller_middle_ground
  by_cases hlen : 0 < history.length
  · rw [if_pos hlen]
    cases hls : last_seller_price history with
    | none => exact Or.inr rfl
    | some lsp =>
      dsimp only []
      by_cases hz : lsp ≠ 0
      · rw [if_pos hz]
        exact Or.inl (le_max_right _ _)
      · rw [if_neg hz]
        exact Or.inr rfl
  · rw [if_neg hlen]
    exact Or.inr rfl

/-- C5 counterexample: at the one-cent seller price, the buyer fallback
counter is clamped up to the epsilon floor and equals the opposing price
exactly, so a counter is not always strictly on the improving side, and
the no-equal-counter rule fails for a positive input price. -/
theorem C5_no_equal_counter_counterexample :
    (BuyerAgent.respond ⟨1 / 100, 0, "balanced", 1 / 4, [], none⟩ .failure
        (1 / 100)).1 =
      .counterOffer (1 / 100) "Strategic counter-offer using fallback" := by
  norm_num [BuyerAgent.respond, should_accept_in_negotiation,
    generate_strategic_counter_offer, BuyerAgent.effective_max, round2, round_eq]

/-- C5 amended: a buyer counter is strictly below the seller price
whenever that price exceeds the one-cent epsilon (at or below 0.01 the
clamp floor can make them exactly equal); a deterministic seller counter
against a cent-aligned buyer price is either at least that price or
exactly the history-independent opening fallback round2(base_price *
1.15) — that opening counter ignores the buyer's price entirely and can
fall strictly below it when min_margin exceeds the 15 percent opening
premium — and rounding can make a seller counter exactly equal to the
buyer price rather than strictly above it. -/
theorem C5_no_equal_counter_amended :
    (∀ (b : BuyerAgent) (oracle : BuyerOracle) (seller_price p : ℚ) (r : String),
      1 / 100 < seller_price →
      (b.respond oracle seller_price).1 = .counterOffer p r →
      p < seller_price) ∧
    (∀ (s : SellerAgent) (counter_price : ℚ) (resource_type : String)
        (duration_hours : ℕ) (scarcity premium : ℚ) (history : List LogEntry)
        (p : ℚ) (r : String),
      centGrid counter_price →
      respond_to_counter_offer s counter_price resource_type duration_hours
        scarcity premium history .failure = .counterOffer p r →
      counter_price ≤ p ∨
        p = round2 (get_base_price s resource_type duration_hours scarcity
          premium * (115 / 100))) := by
  constructor
  · intro b oracle seller_price p r hs hp
    obtain ⟨x, rfl⟩ := respond_counterOffer_shape b oracle seller_price p r hp
    exact counter_clamp_lt hs
  · intro s counter_price resource_type duration_hours scarcity premium history
      p r hgrid hp
    obtain ⟨k, rfl⟩ := hgrid
    simp only [respond_to_counter_offer] at hp
    set B := get_base_price s resource_type duration_hours scarcity premium with hBdef
    by_cases hacc : B * (1 + s.min_margin) ≤ (k : ℚ) / 100
    · rw [if_pos hacc] at hp
      simp at hp
    · rw [if_neg hacc] at hp
      push_neg at hacc
      have hkey : (k : ℚ) / 100 ≤
          round2 (seller_middle_ground (B * (1 + s.min_margin)) B ((k : ℚ) / 100)
            history) ∨
          round2 (seller_middle_ground (B * (1 + s.min_margin)) B ((k : ℚ) / 100)
            history) = round2 (B * (115 / 100)) := by
        rcases seller_middle_ground_cases (B * (1 + s.min_margin)) B
            ((k : ℚ) / 100) history with hge | heq
        · exact Or.inl (round2_ge_grid (by linarith))
        · exact Or.inr (by rw [heq])
      by_cases hgr : 3 ≤ history.length ∧
          B * (1 + s.min_margin) * (95 / 100) ≤ (k : ℚ) / 100
      · rw [if_pos hgr] at hp
        simp at hp
      · rw [if_neg hgr] at hp
        by_cases h06 : B * (6 / 10) ≤ (k : ℚ) / 100
        · rw [if_pos h06] at hp
          simp only [BuyerAction.counterOffer.injEq,
            SellerDecision.counterOffer.injEq] at hp
          rw [← hp.1]
          exact hkey
        · rw [if_neg h06] at hp
          simp only [SellerDecision.counterOffer.injEq] at hp
          rw [← hp.1]
          exact hkey

/-- C5 witness for the amended theorem: the buyer part at seller price 110
(counter 99), the seller part at a counter of 4.00 against base cost 4.60
with a 50 percent margin and a last own published price of 8.00 (the
seller counters 6.90, the margin floor above the halfway point 6.00). -/
theorem C5_no_equal_counter_amended_witness :
    ((1 : ℚ) / 100 < 110 ∧ (99 : ℚ) < 110) ∧
    (centGrid 4 ∧
      ((4 : ℚ) ≤ 69 / 10 ∨
        (69 : ℚ) / 10 =
          round2 (get_base_price ⟨"balanced", 1 / 2, 2 / 5, "normal"⟩ "CPU" 5
            (7 / 10) (23 / 20) * (115 / 100)))) :=
  ⟨⟨by norm_num,
    C5_no_equal_counter_amended.1 ⟨100, 0, "balanced", 1 / 4, [], none⟩ .failure
      110 99 "Strategic counter-offer using fallback" (by norm_num)
      (by norm_num [BuyerAgent.respond, should_accept_in_negotiation,
        generate_strategic_counter_offer, BuyerAgent.effective_max, round2,
        round_eq])⟩,
    ⟨⟨400, by norm_num⟩,
      C5_no_equal_counter_amended.2 ⟨"balanced", 1 / 2, 2 / 5, "normal"⟩ 4 "CPU" 5
        (7 / 10) (23 / 20)
        [⟨.buyer, "counter_offer", none, some 4, 1⟩,
          ⟨.seller, "counter_offer", none, some 8, 1⟩]
        (69 / 10) "Moving toward middle ground" ⟨400, by norm_num⟩
        (by norm_num +decide [respond_to_counter_offer, seller_middle_ground,
          get_base_price, base_prices_cfg, pyUpper, market_multiplier_of,
          last_seller_price, round2, round_eq, List.findSome?])⟩⟩

theorem lookupSession_insertSession_self (sessions : List (ℕ × SessionState))
    (quote_id : ℕ) (s : SessionState) :
    lookupSession (insertSession sessions quote_id s) quote_id = some s := by
  induction sessions with
  | nil => simp [insertSession, lookupSession]
  | cons p rest ih =>
    by_cases h : p.1 = quote_id
    · simp [insertSession, h, lookupSession]
    · simp [insertSession, h, lookupSession, ih]

theorem lookupSession_insertSession_ne (sessions : List (ℕ × SessionState))
    (quote_id id2 : ℕ) (s : SessionState) (h : id2 ≠ quote_id) :
    lookupSession (insertSession sessions quote_id s) id2 =
      lookupSession sessions id2 := by
  have hne : ¬quote_id = id2 := fun hq => h hq.symm
  induction sessions with
  | nil =>
    simp only [insertSession, lookupSession]
    rw [if_neg hne]
  | cons p rest ih =>
    by_cases hp : p.1 = quote_id
    · subst hp
      have hne2 : ¬p.1 = id2 := fun hq => h hq.symm
      simp [insertSession, lookupSession, hne2]
    · simp [insertSession, hp, lookupSession, ih]

theorem insertSession_insertSession (sessions : List (ℕ × SessionState))
    (quote_id : ℕ) (a b : SessionState) :
    insertSession (insertSession sessions quote_id a) quote_id b =
      insertSession sessions quote_id b := by
  induction sessions with
  | nil => simp [insertSession]
  | cons p rest ih =>
    by_cases hp : p.1 = quote_id
    · simp [insertSession, hp]
    · simp [insertSession, hp, ih]

/-- C8: finalize is idempotent. Calling it twice on the same session id
returns the same summary both times (in fact the constant summary pair),
leaves the round number and history of every stored session unchanged,
and a call on a nonexistent session id is a no-op success returning the
same summary. -/
theorem C8_idempotent_finalize (sessions : List (ℕ × SessionState))
    (quote_id : ℕ) :
    (finalize_negotiation (finalize_negotiation sessions quote_id).1 quote_id).2 =
      (finalize_negotiation sessions quote_id).2 ∧
    (finalize_negotiation sessions quote_id).2 = ("finalized", "completed") ∧
    (∀ id2 st2,
      lookupSession
        (finalize_negotiation (finalize_negotiation sessions quote_id).1 quote_id).1
        id2 = some st2 →
      ∃ st1, lookupSession sessions id2 = some st1 ∧
        st2.round_number = st1.round_number ∧
        st2.negotiation_history = st1.negotiation_history) ∧
    (lookupSession sessions quote_id = none →
      (finalize_negotiation sessions quote_id).1 = sessions) := by
  cases hs : lookupSession sessions quote_id with
  | none =>
    refine ⟨?_, ?_, ?_, fun _ => ?_⟩
    · simp [finalize_negotiation, hs]
    · simp [finalize_negotiation, hs]
    · intro id2 st2 hl
      simp only [finalize_negotiation, hs] at hl
      exact ⟨st2, hl, rfl, rfl⟩
    · simp [finalize_negotiation, hs]
  | some s =>
    have h1 : finalize_negotiation sessions quote_id =
        (insertSession sessions quote_id { s with state := "finalized" },
          ("finalized", "completed")) := by
      simp [finalize_negotiation, hs]
    have h2 : lookupSession
        (insertSession sessions quote_id { s with state := "finalized" }) quote_id =
        some { s with state := "finalized" } :=
      lookupSession_insertSession_self _ _ _
    refine ⟨?_, ?_, ?_, fun hnone => ?_⟩
    · rw [h1]
      simp [finalize_negotiation, h2]
    · rw [h1]
    · intro id2 st2 hl
      rw [h1] at hl
      simp only [finalize_negotiation, h2] at hl
      rw [insertSession_insertSession] at hl
      by_cases hid : id2 = quote_id
      · subst hid
        rw [lookupSession_insertSession_self] at hl
        refine ⟨s, hs, ?_, ?_⟩
        · rw [← Option.some_inj.mp hl]
        · rw [← Option.some_inj.mp hl]
      · rw [lookupSession_insertSession_ne _ _ _ _ hid] at hl
        exact ⟨st2, hl, rfl, rfl⟩
    · exact Option.noConfusion hnone

/-- C8 witness at a concrete terminal session. -/
theorem C8_idempotent_finalize_witness :
    (finalize_negotiation
        (finalize_negotiation [(1, ⟨"accepted", 3, some 5, []⟩)] 1).1 1).2 =
      (finalize_negotiation [(1, ⟨"accepted", 3, some 5, []⟩)] 1).2 :=
  (C8_idempotent_finalize [(1, ⟨"accepted", 3, some 5, []⟩)] 1).1

/-- Relation between the loop state at entry and at exit: the turn counter
grows by at most the fuel, a still-priced exit means no break happened (so
the loop guard or the fuel ended the loop and the session state was not
touched), the quote status only ever moves to accepted or rejected, and
any status change is recorded in the session state. -/
def LoopInv (max_turns fuel : ℕ) (st r : LoopSt) : Prop :=
  st.turns ≤ r.turns ∧
  r.turns ≤ st.turns + fuel ∧
  (r.q.status = .priced →
    st.q.status = .priced ∧
    (max_turns ≤ r.turns ∨ r.turns = st.turns + fuel) ∧
    r.sess.state = st.sess.state) ∧
  (r.q.status = st.q.status ∨ r.q.status = .accepted ∨ r.q.status = .rejected) ∧
  (r.q.status ≠ st.q.status →
    r.sess.state = "accepted" ∨ r.sess.state = "rejected")

theorem LoopInv_step (max_turns fuel : ℕ) (st R r : LoopSt)
    (hta : R.turns = st.turns + 1) (hqs : R.q.status = st.q.status)
    (hss : R.sess.state = st.sess.state) (h : LoopInv max_turns fuel R r) :
    LoopInv max_turns (fuel + 1) st r := by
  obtain ⟨a, b, c, d, e⟩ := h
  refine ⟨by omega, by omega, ?_, ?_, ?_⟩
  · intro hp
    obtain ⟨h1, h2, h3⟩ := c hp
    refine ⟨hqs ▸ h1, ?_, hss ▸ h3⟩
    rcases h2 with h2 | h2
    · exact Or.inl h2
    · exact Or.inr (by omega)
  · rcases d with h1 | h1 | h1
    · exact Or.inl (hqs ▸ h1)
    · exact Or.inr (Or.inl h1)
    · exact Or.inr (Or.inr h1)
  · intro hne
    by_cases hsame : r.q.status = R.q.status
    · exact absurd (hqs ▸ hsame) hne
    · exact e hsame

theorem LoopInv_terminal (max_turns fuel : ℕ) (st r : LoopSt)
    (hta : r.turns = st.turns + 1)
    (hstat : r.q.status = .accepted ∨ r.q.status = .rejected)
    (hstate : r.sess.state = "accepted" ∨ r.sess.state = "rejected")
    (hfuel : 1 ≤ fuel) :
    LoopInv max_turns fuel st r := by
  refine ⟨by omega, by omega, ?_, Or.inr hstat, fun _ => hstate⟩
  intro hp
  rcases hstat with h | h <;> rw [h] at hp <;> exact QuoteStatus.noConfusion hp

/-- Invariants of the engine loop, for every fuel and entry state. -/
theorem negotiationTurns_spec (seller : SellerAgent) (resource_type : String)
    (duration_hours : ℕ) (env : EngineEnv) (max_turns : ℕ) :
    ∀ (fuel : ℕ) (st : LoopSt),
      LoopInv max_turns fuel st
        (negotiationTurns seller resource_type duration_hours env max_turns fuel st) := by
  intro fuel
  induction fuel with
  | zero =>
    intro st
    simp only [negotiationTurns]
    exact ⟨le_rfl, by omega, fun h => ⟨h, Or.inr rfl, rfl⟩, Or.inl rfl,
      fun h => absurd rfl h⟩
  | succ fuel ih =>
    intro st
    simp only [negotiationTurns]
    by_cases hg : max_turns ≤ st.turns
    · rw [if_pos hg]
      exact ⟨le_rfl, by omega, fun h => ⟨h, Or.inl hg, rfl⟩, Or.inl rfl,
        fun h => absurd rfl h⟩
    · rw [if_neg hg]
      split
      · exact LoopInv_terminal _ _ _ _ (by simp) (Or.inl (by simp))
          (Or.inl (by simp)) (by omega)
      · split
        · exact LoopInv_terminal _ _ _ _ (by simp) (Or.inl (by simp))
            (Or.inl (by simp)) (by omega)
        · exact LoopInv_step _ _ _ _ _ (by simp) (by simp) (by simp) (ih _)
        · exact LoopInv_terminal _ _ _ _ (by simp) (Or.inr (by simp))
            (Or.inr (by simp)) (by omega)

/-- The post-loop forcing step: with the invariant established for a loop
run started at turn 0 on a priced quote, the final record (after the
round-limit forcing) executes at most max_turns turns, ends accepted or
rejected, and carries session state max_turns_reached only when the
status was forced to rejected. -/
theorem negotiate_post (max_turns : ℕ) (st0 R : LoopSt)
    (hinv : LoopInv max_turns max_turns st0 R) (h0 : st0.turns = 0)
    (hst : st0.q.status = .priced) :
    ((if max_turns ≤ R.turns ∧ R.q.status = .priced then
        { R with
          q := { R.q with status := .rejected, negotiation_log := R.log }
          sess := { R.sess with state := "max_turns_reached" } }
      else R).turns ≤ max_turns ∧
    ((if max_turns ≤ R.turns ∧ R.q.status = .priced then
        { R with
          q := { R.q with status := .rejected, negotiation_log := R.log }
          sess := { R.sess with state := "max_turns_reached" } }
      else R).q.status = .accepted ∨
      (if max_turns ≤ R.turns ∧ R.q.status = .priced then
        { R with
          q := { R.q with status := .rejected, negotiation_log := R.log }
          sess := { R.sess with state := "max_turns_reached" } }
      else R).q.status = .rejected) ∧
    ((if max_turns ≤ R.turns ∧ R.q.status = .priced then
        { R with
          q := { R.q with status := .rejected, negotiation_log := R.log }
          sess := { R.sess with state := "max_turns_reached" } }
      else R).sess.state = "max_turns_reached" →
      (if max_turns ≤ R.turns ∧ R.q.status = .priced then
        { R with
          q := { R.q with status := .rejected, negotiation_log := R.log }
          sess := { R.sess with state := "max_turns_reached" } }
      else R).q.status = .rejected)) := by
  obtain ⟨ha, hb, hc, hd, he⟩ := hinv
  by_cases hf : max_turns ≤ R.turns ∧ R.q.status = .priced
  · rw [if_pos hf]
    exact ⟨by simpa using by omega, Or.inr (by simp), fun _ => by simp⟩
  · rw [if_neg hf]
    refine ⟨by omega, ?_, ?_⟩
    · rcases hd with h1 | h1 | h1
      · exfalso
        rw [hst] at h1
        obtain ⟨_, hturn, _⟩ := hc h1
        rcases hturn with h2 | h2
        · exact hf ⟨h2, h1⟩
        · exact hf ⟨by omega, h1⟩
      · exact Or.inl h1
      · exact Or.inr h1
    · intro hmtr
      by_cases hch : R.q.status = st0.q.status
      · exfalso
        rw [hst] at hch
        obtain ⟨_, hturn, hstate⟩ := hc hch
        rcases hturn with h2 | h2
        · exact hf ⟨h2, hch⟩
        · exact hf ⟨by omega, hch⟩
      · rcases he hch with h1 | h1 <;> rw [h1] at hmtr <;> simp at hmtr

/-- C3: termination and round cap. For every priced quote and positive
turn budget, and regardless of both oracles and all draws, `negotiate`
returns a result (the loop is structurally bounded by its fuel), executes
at most max_turns buyer/seller turns, ends with the quote accepted or
rejected, and whenever the stored session reads max_turns_reached the
engine itself forced the rejected status. -/
theorem C3_termination_and_round_cap (eng : NegotiationEngine) (env : EngineEnv)
    (quote_id : ℕ) (q : Quote) (max_turns : ℕ) (urgency : Option ℚ)
    (strategy : Option String) (hq : q.status = .priced) (hmt : 1 ≤ max_turns) :
    (∃ out, negotiate eng env quote_id q max_turns urgency strategy = .ok out) ∧
    ∀ eng2 q2 t, negotiate eng env quote_id q max_turns urgency strategy =
        .ok (eng2, q2, t) →
      t ≤ max_turns ∧
      (q2.status = .accepted ∨ q2.status = .rejected) ∧
      (∀ s2, lookupSession eng2.negotiation_sessions quote_id = some s2 →
        s2.state = "max_turns_reached" → q2.status = .rejected) := by
  constructor
  · simp [negotiate, hq]
  · intro eng2 q2 t heq
    cases hlk : lookupSession eng.negotiation_sessions quote_id with
    | some s =>
      simp only [negotiate, hq, reduceCtorEq, reduceIte, ne_eq, not_true_eq_false,
        Bool.false_eq_true, if_false, hlk] at heq
      rw [Except.ok.injEq, Prod.mk.injEq, Prod.mk.injEq] at heq
      obtain ⟨he1, he2, he3⟩ := heq
      have hpost := negotiate_post max_turns
        ⟨⟨q.buyer_max_price, urgency.getD (7 / 10), strategy.getD "balanced",
          25 / 100, [], none⟩, s, q, q.negotiation_log, q.price, 0⟩
        (negotiationTurns eng.seller q.resource_type q.duration_hours env
          max_turns max_turns
          ⟨⟨q.buyer_max_price, urgency.getD (7 / 10), strategy.getD "balanced",
            25 / 100, [], none⟩, s, q, q.negotiation_log, q.price, 0⟩)
        (negotiationTurns_spec eng.seller q.resource_type q.duration_hours env
          max_turns max_turns _) rfl hq
      rw [← he2, ← he3]
      refine ⟨hpost.1, hpost.2.1, ?_⟩
      intro s2 hs2 hmtr
      rw [← he1] at hs2
      simp only at hs2
      rw [lookupSession_insertSession_self] at hs2
      rw [← Option.some_inj.mp hs2] at hmtr
      exact hpost.2.2 hmtr
    | none =>
      simp only [negotiate, hq, reduceCtorEq, reduceIte, ne_eq, not_true_eq_false,
        Bool.false_eq_true, if_false, hlk] at heq
      rw [Except.ok.injEq, Prod.mk.injEq, Prod.mk.injEq] at heq
      obtain ⟨he1, he2, he3⟩ := heq
      have hpost := negotiate_post max_turns
        ⟨⟨q.buyer_max_price, urgency.getD (7 / 10), strategy.getD "balanced",
          25 / 100, [], none⟩, ⟨"negotiating", 1, some q.price, []⟩, q,
          q.negotiation_log, q.price, 0⟩
        (negotiationTurns eng.seller q.resource_type q.duration_hours env
          max_turns max_turns
          ⟨⟨q.buyer_max_price, urgency.getD (7 / 10), strategy.getD "balanced",
            25 / 100, [], none⟩, ⟨"negotiating", 1, some q.price, []⟩, q,
            q.negotiation_log, q.price, 0⟩)
        (negotiationTurns_spec eng.seller q.resource_type q.duration_hours env
          max_turns max_turns _) rfl hq
      rw [← he2, ← he3]
      refine ⟨hpost.1, hpost.2.1, ?_⟩
      intro s2 hs2 hmtr
      rw [← he1] at hs2
      simp only at hs2
      rw [lookupSession_insertSession_self] at hs2
      rw [← Option.some_inj.mp hs2] at hmtr
      exact hpost.2.2 hmtr

/-- C10: zero-turn edge case. Calling `negotiate` with max_turns zero on a
priced quote performs no buyer or seller turns (the returned turn count is
zero), appends nothing to the negotiation log (the returned quote is the
input with only its status changed), sets the status to the rejected
round-limit outcome, and stores the session as max_turns_reached. -/
theorem C10_zero_turns (eng : NegotiationEngine) (env : EngineEnv)
    (quote_id : ℕ) (q : Quote) (urgency : Option ℚ) (strategy : Option String)
    (hq : q.status = .priced) :
    ∃ eng2, negotiate eng env quote_id q 0 urgency strategy =
        .ok (eng2, { q with status := .rejected }, 0) ∧
      ∃ s2, lookupSession eng2.negotiation_sessions quote_id = some s2 ∧
        s2.state = "max_turns_reached" := by
  cases hlk : lookupSession eng.negotiation_sessions quote_id with
  | some s =>
    simp only [negotiate, hq, reduceCtorEq, reduceIte, ne_eq, not_true_eq_false,
      Bool.false_eq_true, if_false, hlk, negotiationTurns]
    refine ⟨_, rfl, _, lookupSession_insertSession_self _ _ _, rfl⟩
  | none =>
    simp only [negotiate, hq, reduceCtorEq, reduceIte, ne_eq, not_true_eq_false,
      Bool.false_eq_true, if_false, hlk, negotiationTurns]
    refine ⟨_, rfl, _, lookupSession_insertSession_self _ _ _, rfl⟩

/-- Oracle environment with every LLM call failing and fixed draws
(scarcity 0.7, premium 1.15), used by concrete engine runs. -/
def failEnv : EngineEnv :=
  ⟨fun _ => .failure, fun _ => .failure, fun _ => 7 / 10, fun _ => 23 / 20,
    none, 7 / 10, 23 / 20⟩

/-- Seller agent with the constructor defaults. -/
def defaultSeller : SellerAgent := ⟨"balanced", 5 / 100, 4 / 10, "normal"⟩

/-- C3 witness at a concrete priced quote and turn budget 4. -/
theorem C3_termination_and_round_cap_witness :
    (Quote.mk "GPU" 1 100 (288 / 100) .priced []).status = .priced ∧
      (1 : ℕ) ≤ 4 ∧
      ∃ out, negotiate ⟨defaultSeller, []⟩ failEnv 1
        (Quote.mk "GPU" 1 100 (288 / 100) .priced []) 4 none none = .ok out :=
  ⟨rfl, by norm_num,
    (C3_termination_and_round_cap ⟨defaultSeller, []⟩ failEnv 1
      (Quote.mk "GPU" 1 100 (288 / 100) .priced []) 4 none none rfl
      (by norm_num)).1⟩

/-- C10 witness at a concrete priced quote. -/
theorem C10_zero_turns_witness :
    (Quote.mk "GPU" 1 100 (288 / 100) .priced []).status = .priced ∧
      ∃ eng2, negotiate ⟨defaultSeller, []⟩ failEnv 1
          (Quote.mk "GPU" 1 100 (288 / 100) .priced []) 0 none none =
        .ok (eng2,
          { Quote.mk "GPU" 1 100 (288 / 100) .priced [] with status := .rejected },
          0) ∧
        ∃ s2, lookupSession eng2.negotiation_sessions 1 = some s2 ∧
          s2.state = "max_turns_reached" :=
  ⟨rfl, C10_zero_turns ⟨defaultSeller, []⟩ failEnv 1
    (Quote.mk "GPU" 1 100 (288 / 100) .priced []) none none rfl⟩

/-- C7 counterexample: calling the engine wired to the API
(src/agents/negotiation_engine.py) on a quote still in the pending state
is not rejected: the engine prices the quote first (one log entry is
appended and the price is set) and then runs the negotiation, here ending
accepted after one turn. The call returns a success and both the quote
and the session registry are mutated, refuting the claim that a pending
quote is rejected synchronously with no state change. -/
theorem C7_invalid_state_counterexample :
    (negotiate ⟨defaultSeller, []⟩ failEnv 1 ⟨"GPU", 1, 100, 0, .pending, []⟩ 4
        none none).map
      (fun r => (r.2.1.status, r.2.1.price, r.2.1.negotiation_log.length, r.2.2)) =
      .ok (.accepted, 72 / 25, 2, 1) := by
  norm_num +decide [negotiate, run_loop, negotiationTurns, BuyerAgent.respond,
    should_accept_in_negotiation, generate_strategic_counter_offer,
    BuyerAgent.effective_max, get_base_price, base_prices_cfg, pyUpper,
    market_multiplier_of, lookupSession, insertSession, round2, round_eq,
    failEnv, defaultSeller, Except.map]

/-- C7 amended: the legacy engine (src/negotiation/engine.py) rejects a
pending quote synchronously with the wrong-status reason and produces no
updated state; the engine wired to the API instead auto-prices pending
quotes, and rejects synchronously with no updated state exactly the
quotes whose status is neither pending nor priced. -/
theorem C7_invalid_state_amended :
    (∀ (quote_id : ℕ) (q : Quote), q.status = .pending →
      legacyNegotiate quote_id q =
        .error ("Quote " ++ toString quote_id ++ " is not in priced status")) ∧
    (∀ (eng : NegotiationEngine) (env : EngineEnv) (quote_id : ℕ) (q : Quote)
        (max_turns : ℕ) (urgency : Option ℚ) (strategy : Option String),
      q.status ≠ .pending → q.status ≠ .priced →
      negotiate eng env quote_id q max_turns urgency strategy =
        .error ("Quote " ++ toString quote_id ++ " is not in priced status")) := by
  constructor
  · intro quote_id q hq
    simp [legacyNegotiate, hq]
  · intro eng env quote_id q max_turns urgency strategy h1 h2
    simp only [negotiate]
    rw [if_neg h1]
    simp only []
    rw [if_pos h2]

/-- C7 witness for the amended theorem: a pending quote against the
legacy engine, a paid quote against the engine wired to the API. -/
theorem C7_invalid_state_amended_witness :
    ((Quote.mk "GPU" 1 100 0 .pending []).status = .pending ∧
      legacyNegotiate 7 (Quote.mk "GPU" 1 100 0 .pending []) =
        .error ("Quote " ++ toString 7 ++ " is not in priced status")) ∧
    ((Quote.mk "GPU" 1 100 5 .paid []).status ≠ .pending ∧
      negotiate ⟨defaultSeller, []⟩ failEnv 7 (Quote.mk "GPU" 1 100 5 .paid [])
        4 none none =
        .error ("Quote " ++ toString 7 ++ " is not in priced status")) :=
  ⟨⟨rfl, C7_invalid_state_amended.1 7 (Quote.mk "GPU" 1 100 0 .pending []) rfl⟩,
    ⟨fun h => QuoteStatus.noConfusion h,
      C7_invalid_state_amended.2 ⟨defaultSeller, []⟩ failEnv 7
        (Quote.mk "GPU" 1 100 5 .paid []) 4 none none
        (fun h => QuoteStatus.noConfusion h)
        (fun h => QuoteStatus.noConfusion h)⟩⟩

/-- C4 counterexample: a full deterministic-fallback trace, exactly as the
engine composes it (opening ask 9.2; buyer budget 6.44 with urgency 0;
seller margin 0.5 over the CPU base cost 4.60, margin floor 6.90; oracle
failing throughout; the histories passed to the seller are the session
entries the engine appends). Buyer offers run 6.44, 5.28, 6.09 against
seller asks 9.2, 5.29, 6.9: pairing each round by the two latest offers
after the round, the gap goes 1.15, 1.62 (increase at round 2); pairing
the ask the buyer answered with its counter, the gap goes 2.76, 0.01,
0.81 (increase at round 3). Under either reading of the round index the
gap is not non-increasing, because the seller fallback without a usable
own last price counters at base * 1.15 and later snaps back up to the
margin floor, both independent of the opening price. -/
theorem C4_convergence_counterexample :
    (BuyerAgent.respond ⟨644 / 100, 0, "balanced", 1 / 4, [], none⟩ .failure
        (92 / 10) =
      (.counterOffer (644 / 100) "Strategic counter-offer using fallback",
        ⟨644 / 100, 0, "balanced", 1 / 4, [92 / 10], some (644 / 100)⟩)) ∧
    (respond_to_counter_offer ⟨"balanced", 1 / 2, 2 / 5, "normal"⟩ (644 / 100)
        "CPU" 5 (7 / 10) (23 / 20)
        [⟨.buyer, "counter_offer", none, some (644 / 100), 1⟩] .failure =
      .counterOffer (529 / 100) "Moving toward middle ground") ∧
    (BuyerAgent.respond ⟨644 / 100, 0, "balanced", 1 / 4, [92 / 10],
        some (644 / 100)⟩ .failure (529 / 100) =
      (.counterOffer (528 / 100) "Strategic counter-offer using fallback",
        ⟨644 / 100, 0, "balanced", 1 / 4, [92 / 10, 529 / 100],
          some (528 / 100)⟩)) ∧
    (respond_to_counter_offer ⟨"balanced", 1 / 2, 2 / 5, "normal"⟩ (528 / 100)
        "CPU" 5 (7 / 10) (23 / 20)
        [⟨.buyer, "counter_offer", none, some (644 / 100), 1⟩,
          ⟨.seller, "counter_offer", none, some (529 / 100), 1⟩,
          ⟨.buyer, "counter_offer", none, some (528 / 100), 2⟩] .failure =
      .counterOffer (69 / 10) "Moving toward middle ground") ∧
    (BuyerAgent.respond ⟨644 / 100, 0, "balanced", 1 / 4, [92 / 10, 529 / 100],
        some (528 / 100)⟩ .failure (69 / 10) =
      (.counterOffer (609 / 100) "Strategic counter-offer using fallback",
        ⟨644 / 100, 0, "balanced", 1 / 4, [92 / 10, 529 / 100, 69 / 10],
          some (609 / 100)⟩)) ∧
    |(529 : ℚ) / 100 - 644 / 100| < |(69 : ℚ) / 10 - 528 / 100| ∧
    |(529 : ℚ) / 100 - 528 / 100| < |(69 : ℚ) / 10 - 609 / 100| := by
  refine ⟨?_, ?_, ?_, ?_, ?_, ?_, ?_⟩ <;>
    norm_num +decide [BuyerAgent.respond, should_accept_in_negotiation,
      generate_strategic_counter_offer, BuyerAgent.effective_max,
      respond_to_counter_offer, seller_middle_ground, get_base_price,
      base_prices_cfg, pyUpper, market_multiplier_of, last_seller_price,
      round2, round_eq, List.findSome?, abs]

theorem last_seller_price_pos {history : List LogEntry} {x : ℚ}
    (hl : last_seller_price history = some x) : 0 < history.length := by
  cases history with
  | nil => simp [last_seller_price, List.findSome?] at hl
  | cons a t => simp

/-- C4 amended: one deterministic-fallback round never widens the gap,
once the seller has a usable own last price at least its rounded margin
floor (true from the second seller counter onward). If the seller ask sp
and the buyer last offer b are whole cents with b at least one cent below
sp and at least one cent, the seller has last published sp, the rounded
margin floor is at most sp, the buyer fallback remembers b as its last
offer with nonnegative urgency and b within a half-cent of effective_max,
then a seller fallback counter p satisfies b + 0.01 <= p <= sp and stays
at or above the rounded floor, and a buyer fallback counter p2 against p
satisfies b <= p2 <= p - 0.01 with the effective_max bound re-established,
so the new gap obeys the bound of the old one. The first fallback round is
excluded: there the seller ignores the opening ask (counterexample). -/
theorem C4_convergence_amended (s : SellerAgent) (resource_type : String)
    (duration_hours : ℕ) (scarcity premium : ℚ) (history : List LogEntry)
    (buyer : BuyerAgent) (B b sp : ℚ)
    (hB : get_base_price s resource_type duration_hours scarcity premium = B)
    (hbgrid : centGrid b) (hsgrid : centGrid sp)
    (hbs : b + 1 / 100 ≤ sp) (hb0 : 1 / 100 ≤ b)
    (hlast : last_seller_price history = some sp)
    (hsm : round2 (B * (1 + s.min_margin)) ≤ sp)
    (hbl : buyer.last_offer = some b) (hu : 0 ≤ buyer.urgency)
    (heff : b ≤ buyer.effective_max + 1 / 200) :
    ∀ p r, respond_to_counter_offer s b resource_type duration_hours scarcity
        premium history .failure = .counterOffer p r →
      p ≤ sp ∧ round2 (B * (1 + s.min_margin)) ≤ p ∧ b + 1 / 100 ≤ p ∧
      centGrid p ∧
      ∀ p2 r2, (buyer.respond .failure p).1 = .counterOffer p2 r2 →
        b ≤ p2 ∧ p2 + 1 / 100 ≤ p ∧ centGrid p2 ∧
        p2 ≤ buyer.effective_max + 1 / 200 ∧
        |p - p2| ≤ |sp - b| := by
  intro p r hp
  obtain ⟨ks, hks⟩ := hsgrid
  obtain ⟨kb, hkb⟩ := hbgrid
  have hlen := last_seller_price_pos hlast
  have hsp_pos : (0 : ℚ) < sp := by linarith
  have hsp0 : sp ≠ 0 := ne_of_gt hsp_pos
  -- the seller decision is the rounded middle ground
  simp only [respond_to_counter_offer, hB] at hp
  have hval : p = round2 (seller_middle_ground (B * (1 + s.min_margin)) B b history) := by
    by_cases hacc : B * (1 + s.min_margin) ≤ b
    · rw [if_pos hacc] at hp
      simp at hp
    · rw [if_neg hacc] at hp
      by_cases hgr : 3 ≤ history.length ∧ B * (1 + s.min_margin) * (95 / 100) ≤ b
      · rw [if_pos hgr] at hp
        simp at hp
      · rw [if_neg hgr] at hp
        by_cases h06 : B * (6 / 10) ≤ b
        · rw [if_pos h06] at hp
          simp only [SellerDecision.counterOffer.injEq] at hp
          exact hp.1.symm
        · rw [if_neg h06] at hp
          simp only [SellerDecision.counterOffer.injEq] at hp
          exact hp.1.symm
  have hmg : seller_middle_ground (B * (1 + s.min_margin)) B b history =
      max (sp - (sp - b) * (1 / 2)) (B * (1 + s.min_margin)) := by
    unfold seller_middle_ground
    rw [if_pos hlen, hlast]
    dsimp only []
    rw [if_pos hsp0]
  have hminacc_lt : B * (1 + s.min_margin) < sp + 1 / 200 := by
    have := round2_gt_self_sub (B * (1 + s.min_margin))
    linarith
  have hmax_lt : max (sp - (sp - b) * (1 / 2)) (B * (1 + s.min_margin)) <
      sp + 1 / 200 :=
    max_lt (by linarith) hminacc_lt
  have hmax_ge : b + 1 / 200 ≤
      max (sp - (sp - b) * (1 / 2)) (B * (1 + s.min_margin)) :=
    le_trans (by linarith) (le_max_left _ _)
  have hp_le_sp : p ≤ sp := by
    rw [hval, hmg, hks]
    exact round2_le_grid (by rw [← hks]; exact hmax_lt)
  have hp_floor : round2 (B * (1 + s.min_margin)) ≤ p := by
    rw [hval, hmg]
    exact round2_mono (le_max_right _ _)
  have hp_gt_b : b + 1 / 100 ≤ p := by
    rw [hval, hmg]
    have hcast : ((kb + 1 : ℤ) : ℚ) / 100 = b + 1 / 100 := by
      push_cast
      rw [hkb]
      ring
    rw [← hcast]
    exact round2_ge_grid (by rw [hcast]; linarith)
  refine ⟨hp_le_sp, hp_floor, hp_gt_b, hval ▸ round2_centGrid _, ?_⟩
  -- the buyer step against p
  intro p2 r2 hp2
  have hp_ge2 : 2 / 100 ≤ p := by linarith
  simp only [BuyerAgent.respond] at hp2
  by_cases a1 : p ≤ buyer.max_wtp * (6 / 10)
  · rw [if_pos a1] at hp2
    simp at hp2
  · rw [if_neg a1] at hp2
    by_cases a2 : 4 ≤ (buyer.negotiation_history ++ [p]).length ∧
        p ≤ buyer.max_wtp * (95 / 100)
    · rw [if_pos a2] at hp2
      simp at hp2
    · rw [if_neg a2] at hp2
      by_cases a3 : should_accept_in_negotiation
          { buyer with negotiation_history := buyer.negotiation_history ++ [p] }
          p = true
      · rw [if_pos a3] at hp2
        simp at hp2
      · rw [if_neg a3] at hp2
        simp only [generate_strategic_counter_offer, List.length_append,
          List.length_cons, List.length_nil, BuyerAction.counterOffer.injEq] at hp2
        rw [if_neg (by omega)] at hp2
        rw [hbl] at hp2
        simp only [Option.getD_some] at hp2
        have hrec : BuyerAgent.effective_max
            { max_wtp := buyer.max_wtp, urgency := buyer.urgency,
              strategy := buyer.strategy,
              budget_flexibility := buyer.budget_flexibility,
              negotiation_history := buyer.negotiation_history ++ [p],
              last_offer := some b } = buyer.effective_max := rfl
        rw [hrec] at hp2
        -- name the generated counter
        set mid := (b + (p - b) * (1 / 2)) * (1 + buyer.urgency * (5 / 100)) with hmid
        set inner := min (min mid buyer.effective_max) (p - 1 / 100) with hinner
        set G := round2 (max (1 / 100) inner) with hG
        have hmid_ge : b + 1 / 200 ≤ mid := by
          rw [hmid]
          have h1 : b + 1 / 200 ≤ b + (p - b) * (1 / 2) := by linarith
          nlinarith [hb0, hu]
        have hinner_ge : b - 1 / 200 ≤ inner := by
          rw [hinner]
          refine le_min (le_min (by linarith) (by linarith)) (by linarith)
        have harg_ge : b - 1 / 200 ≤ max (1 / 100) inner :=
          le_trans hinner_ge (le_max_right _ _)
        have hG_ge_b : b ≤ G := by
          rw [hG, hkb]
          exact round2_ge_grid (by rw [← hkb]; exact harg_ge)
        have harg_le : max (1 / 100) inner ≤ p - 1 / 100 := by
          refine max_le (by linarith) ?_
          rw [hinner]
          exact min_le_right _ _
        have hpgrid : centGrid (p - 1 / 100) := by
          obtain ⟨kp, hkp⟩ := hval ▸ round2_centGrid
            (seller_middle_ground (B * (1 + s.min_margin)) B b history)
          exact ⟨kp - 1, by rw [hkp]; push_cast; ring⟩
        have hG_le : G ≤ p - 1 / 100 := by
          rw [hG]
          calc round2 (max (1 / 100) inner) ≤ round2 (p - 1 / 100) :=
                round2_mono harg_le
            _ = p - 1 / 100 := round2_grid_fix hpgrid
        have hG_eff : G ≤ buyer.effective_max + 1 / 200 := by
          rcases le_or_lt inner (1 / 100) with hcase | hcase
          · have : max (1 / 100) inner = 1 / 100 := max_eq_left hcase
            rw [hG, this, round2_grid_fix ⟨1, by norm_num⟩]
            linarith
          · have : max (1 / 100) inner = inner := max_eq_right (le_of_lt hcase)
            rw [hG, this]
            have h1 : inner ≤ buyer.effective_max := by
              rw [hinner]
              exact le_trans (min_le_left _ _) (min_le_right _ _)
            have h2 := round2_le_self_add inner
            linarith
        -- the outer clamp leaves the generated counter unchanged
        have houter : min G (p - 1 / 100) = G := min_eq_left hG_le
        have hmax2 : max (1 / 100) (min G (p - 1 / 100)) = G := by
          rw [houter]
          exact max_eq_right (by linarith)
        have hp2v : p2 = G := by
          rw [← hp2.1, hmax2, round2_grid_fix (hG ▸ round2_centGrid _)]
        refine ⟨hp2v ▸ hG_ge_b, by rw [hp2v]; linarith, ?_, hp2v ▸ hG_eff, ?_⟩
        · rw [hp2v, hG]
          exact round2_centGrid _
        · rw [hp2v]
          rw [abs_of_nonneg (by linarith), abs_of_nonneg (by linarith)]
          linarith

/-- C4 witness for the amended step theorem, at round three of the
counterexample trace: seller ask 6.9 with buyer last offer 6.09 produces
seller counter 6.9 and buyer counter 6.44, and the gap shrinks from 0.81
to 0.46. -/
theorem C4_convergence_amended_witness :
    ((609 : ℚ) / 100 + 1 / 100 ≤ 69 / 10) ∧
      |(69 : ℚ) / 10 - 644 / 100| ≤ |(69 : ℚ) / 10 - 609 / 100| :=
  ⟨by norm_num,
    (((C4_convergence_amended ⟨"balanced", 1 / 2, 2 / 5, "normal"⟩ "CPU" 5
        (7 / 10) (23 / 20)
        [⟨.seller, "counter_offer", none, some (69 / 10), 2⟩]
        ⟨644 / 100, 0, "balanced", 1 / 4, [92 / 10, 529 / 100], some (609 / 100)⟩
        (23 / 5) (609 / 100) (69 / 10)
        (by norm_num +decide [get_base_price, base_prices_cfg, pyUpper,
          market_multiplier_of, round2, round_eq])
        ⟨609, by norm_num⟩ ⟨690, by norm_num⟩ (by norm_num) (by norm_num)
        (by norm_num [last_seller_price, List.findSome?])
        (by norm_num [round2, round_eq])
        rfl (by norm_num)
        (by norm_num [BuyerAgent.effective_max]))
      (69 / 10) "Moving toward middle ground"
      (by norm_num +decide [respond_to_counter_offer, seller_middle_ground,
        get_base_price, base_prices_cfg, pyUpper, market_multiplier_of,
        last_seller_price, round2, round_eq, List.findSome?])).2.2.2.2
      (644 / 100) "Strategic counter-offer using fallback"
      (by norm_num [BuyerAgent.respond, should_accept_in_negotiation,
        generate_strategic_counter_offer, BuyerAgent.effective_max, round2,
        round_eq])).2.2.2.2⟩

end Spec2Proof
